import Mathlib

/-!
Verification of the to-do app core ("task state engine").

This file is a shallow embedding, in Lean, of the pure data/logic layer
of the application: date-window utilities, the credential store, the
session manager, the task store and the view engine.  Each definition is
translated from the corresponding JavaScript function; platform
primitives the code calls (the `Date` object, `localStorage`,
`String.prototype.trim`/`toLowerCase`, `TextEncoder`, WebCrypto SHA-256,
`btoa`) are modelled explicitly as pure Lean functions over the domains
the application actually uses (calendar dates as day numbers, storage as
explicit state values, Unicode strings as lists of scalar values).
-/

namespace TodoApp

/-! ## DateWindow: calendar arithmetic

The source manipulates dates through the JS `Date` object at local
midnight (`parseISOToLocalDate`, `toISODateLocal`, `getWeekRangeISO`).
We model a calendar date by its day number relative to the epoch
1970-01-01 (the value `new Date(...).getTime() / 86400000` at UTC
midnight), using the standard civil-from-days / days-from-civil
algorithms, which agree with `Date`'s proleptic Gregorian calendar.
-/

/-- Day number of the civil date `y-m-d` relative to 1970-01-01.
Models the `Date` object's calendar for `1 ≤ m ≤ 12`, `1 ≤ d`; a day
component beyond the month's length rolls over into later months
exactly as `Date.prototype.setFullYear` does. -/
def daysFromCivil (y m d : Int) : Int :=
  let yy := if m ≤ 2 then y - 1 else y
  let era := yy.fdiv 400
  let yoe := yy - era * 400
  let mp := (m + 9) % 12
  let doy := (153 * mp + 2) / 5 + d - 1
  let doe := yoe * 365 + yoe / 4 - yoe / 100 + doy
  era * 146097 + doe - 719468

/-- Civil date `(y, m, d)` of the day number `z` (inverse of
`daysFromCivil` on valid dates). -/
def civilFromDays (z : Int) : Int × Int × Int :=
  let z' := z + 719468
  let era := z'.fdiv 146097
  let doe := z' - era * 146097
  let yoe := (doe - doe / 1460 + doe / 36524 - doe / 146096) / 365
  let y := yoe + era * 400
  let doy := doe - (365 * yoe + yoe / 4 - yoe / 100)
  let mp := (5 * doy + 2) / 153
  let d := doy - (153 * mp + 2) / 5 + 1
  let m := mp + (if mp < 10 then 3 else -9)
  (if m ≤ 2 then y + 1 else y, m, d)

/-- Left-pad the decimal rendering of `n` with zeros to `width` digits
(the `padStart`-style padding used by `toISOString` date components). -/
def zeroPad (width n : Nat) : String :=
  let s := Nat.toDigits 10 n
  String.mk (List.replicate (width - s.length) '0' ++ s)

/-- Render a civil date as `YYYY-MM-DD`, as `toISODateLocal` does via
`toISOString().slice(0, 10)` (years of at most four digits). -/
def formatISODate (y m d : Int) : String :=
  zeroPad 4 y.toNat ++ "-" ++ zeroPad 2 m.toNat ++ "-" ++ zeroPad 2 d.toNat

/-- Render a day number as a `YYYY-MM-DD` string. -/
def formatDays (n : Int) : String :=
  match civilFromDays n with
  | (y, m, d) => formatISODate y m d

/-- `iso.split('-')` on the underlying characters. -/
def splitOnDash : List Char → List (List Char)
  | [] => [[]]
  | c :: cs =>
    let r := splitOnDash cs
    if c = '-' then [] :: r
    else
      match r with
      | [] => [[c]]
      | h :: t => (c :: h) :: t

/-- `Number(part)` for a non-empty all-digit part, `none` otherwise. -/
def digitsToNat? (l : List Char) : Option Nat :=
  if l ≠ [] ∧ l.all Char.isDigit then
    some (l.foldl (fun acc c => acc * 10 + (c.toNat - 48)) 0)
  else none

/-- Parse a `YYYY-MM-DD` string to its day number.  Models
`parseISOToLocalDate` on well-formed ISO date strings (numeric parts,
month in 1..12): the source splits on `-`, applies `Number`, and feeds
the parts to `setFullYear`.  Inputs outside this domain (where the
source would consult the impure current date or build an invalid
`Date`) are mapped to `none`. -/
def parseISODate (s : String) : Option Int :=
  match splitOnDash s.data with
  | [ys, ms, ds] =>
    match digitsToNat? ys, digitsToNat? ms, digitsToNat? ds with
    | some y, some m, some d =>
      if 1 ≤ m ∧ m ≤ 12 ∧ 1 ≤ d then some (daysFromCivil y m d) else none
    | _, _, _ => none
  | _ => none

/-- A Monday-to-Sunday week, both endpoints as `YYYY-MM-DD` strings
(the result shape of `getWeekRangeISO`; the source field `end` is a
Lean keyword, rendered here as `end_`). -/
structure WeekRange where
  start : String
  end_ : String
  deriving DecidableEq, Repr

/-- `getWeekRangeISO(anchorISO)`: Monday and Sunday of the week
containing the anchor date.  `getDay()` (0 = Sunday) is
`(dayNumber + 4) % 7` since 1970-01-01 was a Thursday; the source then
steps back `deltaToMonday` days and forward six more for Sunday. -/
def getWeekRangeISO (anchorISO : String) : Option WeekRange :=
  (parseISODate anchorISO).map fun n =>
    let day := (n + 4) % 7
    let deltaToMonday := if day = 0 then -6 else 1 - day
    let monday := n + deltaToMonday
    let sunday := monday + 6
    { start := formatDays monday, end_ := formatDays sunday }

/-! ## Task data model

A task record as created by the add-task handler and by
`normalizeTask`.  `createdAt`/`updatedAt` are ISO timestamp strings in
the source, always compared through `new Date(...).getTime()`; we model
them directly by that millisecond value.  `dueAt` is an optional
`YYYY-MM-DD` string (`undefined` is `none`); `priority` is an optional
string among `low`/`med`/`high`. -/
structure Task where
  id : String
  title : String
  completed : Bool
  description : Option String
  createdAt : Nat
  updatedAt : Nat
  dueAt : Option String
  priority : Option String
  deriving DecidableEq, Repr

/-- JS truthiness of an optional string field (`undefined` and the
empty string are falsy). -/
def truthyStr : Option String → Bool
  | some s => s != ""
  | none => false

/-- `new Date(s).getTime()` for a `YYYY-MM-DD` string: milliseconds at
UTC midnight of that date.  Unparseable strings (`NaN` in JS) are
outside the modelled domain and mapped to day 0. -/
def dateVal (s : String) : Int :=
  86400000 * ((parseISODate s).getD 0)

/-- `compareCreated(a, b)`: `createdAt` descending (newest first). -/
def compareCreated (a b : Task) : Int :=
  (b.createdAt : Int) - (a.createdAt : Int)

/-- The comparator of `sortTasks` for the `dueAt` key: undated tasks
sort after dated ones, dated ones ascending by `new Date(dueAt)`
difference, ties fall back to `compareCreated`. -/
def cmpDueAt (a b : Task) : Int :=
  if !truthyStr a.dueAt && !truthyStr b.dueAt then compareCreated a b
  else if !truthyStr a.dueAt then 1
  else if !truthyStr b.dueAt then -1
  else
    let diff := dateVal (a.dueAt.getD "") - dateVal (b.dueAt.getD "")
    if diff ≠ 0 then diff else compareCreated a b

/-- The rank table `{ high: 0, med: 1, low: 2, none: 3 }`, applied to
`a.priority || 'none'` (normalized priorities only). -/
def priorityRank : Option String → Int
  | some "high" => 0
  | some "med" => 1
  | some "low" => 2
  | _ => 3

/-- The comparator of `sortTasks` for the `priority` key. -/
def cmpPriority (a b : Task) : Int :=
  let rankA := priorityRank a.priority
  let rankB := priorityRank b.priority
  if rankA ≠ rankB then rankA - rankB else compareCreated a b

/-- `sortTasks(listToSort)`: copies the list and sorts it with the
comparator selected by the current sort key.  `Array.prototype.sort`
with a consistent comparator is specified to produce a stable sorted
order; a stable sorted permutation is unique, so the stable
`List.insertionSort` on the comparator's `≤ 0` relation realises it. -/
def sortTasks (currentSort : String) (listToSort : List Task) : List Task :=
  if currentSort = "dueAt" then
    listToSort.insertionSort fun a b => cmpDueAt a b ≤ 0
  else if currentSort = "priority" then
    listToSort.insertionSort fun a b => cmpPriority a b ≤ 0
  else
    listToSort.insertionSort fun a b => compareCreated a b ≤ 0

/-- The status-filter stage of `getVisibleTasks`. -/
def statusFilter (currentFilter : String) (tasks : List Task) : List Task :=
  tasks.filter fun task =>
    if currentFilter = "active" then !task.completed
    else if currentFilter = "completed" then task.completed
    else true

/-- The agenda-window stage of `getVisibleTasks`: `day` keeps tasks
whose (truthy) `dueAt` equals the anchor; `week` keeps tasks whose
`dueAt` lies in `getWeekRangeISO(anchor)` by string comparison; any
other scope keeps everything.  The `none` branch of the week range
covers anchors outside the modelled date domain, where the source
would consult the impure current date. -/
def agendaWindow (agendaScope agendaDate : String) (filtered : List Task) : List Task :=
  if agendaScope = "day" then
    filtered.filter fun task => truthyStr task.dueAt && task.dueAt == some agendaDate
  else if agendaScope = "week" then
    match getWeekRangeISO agendaDate with
    | some r =>
      filtered.filter fun task =>
        truthyStr task.dueAt &&
          decide (r.start ≤ task.dueAt.getD "") && decide (task.dueAt.getD "" ≤ r.end_)
    | none => []
  else filtered

/-- `getVisibleTasks()`: status filter, then agenda window, then sort
-- the three-stage pipeline of the view engine. -/
def getVisibleTasks (tasks : List Task)
    (currentFilter agendaScope agendaDate currentSort : String) : List Task :=
  sortTasks currentSort (agendaWindow agendaScope agendaDate (statusFilter currentFilter tasks))

/-! ## Task store: normalization and load -/

/-- Days in a civil month under the proleptic Gregorian leap rule, as
the engines' strict validation of the `YYYY-MM-DD` date form applies
it (`2024-02-29` is a date, `2024-02-31` is not). -/
def daysInMonth (y : Int) (m : Nat) : Nat :=
  if m = 2 then (if y % 4 = 0 ∧ (y % 100 ≠ 0 ∨ y % 400 = 0) then 29 else 28)
  else if m = 4 ∨ m = 6 ∨ m = 9 ∨ m = 11 then 30 else 31

/-- Exactly two decimal digits at the head of the list, with the rest
of the list. -/
def twoDigits? : List Char → Option (Nat × List Char)
  | a :: b :: rest =>
    if a.isDigit ∧ b.isDigit then
      some ((a.toNat - 48) * 10 + (b.toNat - 48), rest)
    else none
  | _ => none

/-- The year of a date-time string, with the rest of the string: four
digits, or an expanded year (a `+` or `-` sign and six digits, the
form `-000000` excluded). -/
def parseYearPart (l : List Char) : Option (Int × List Char) :=
  match l with
  | '+' :: rest =>
    match digitsToNat? (rest.take 6) with
    | some y => if 6 ≤ rest.length then some ((y : Int), rest.drop 6) else none
    | none => none
  | '-' :: rest =>
    match digitsToNat? (rest.take 6) with
    | some y =>
        if 6 ≤ rest.length ∧ y ≠ 0 then some (-(y : Int), rest.drop 6) else none
    | none => none
  | _ =>
    match digitsToNat? (l.take 4) with
    | some y => if 4 ≤ l.length then some ((y : Int), l.drop 4) else none
    | none => none

/-- The date part `YYYY[-MM[-DD]]` of a date-time string as a civil
year, month and day: strict digit counts, an omitted month or day
defaulting to `01`, the month in `01..12` and the day validated
against the calendar month. -/
def parseDatePart (l : List Char) : Option (Int × Nat × Nat) :=
  match parseYearPart l with
  | none => none
  | some (y, rest) =>
    match rest with
    | [] => some (y, 1, 1)
    | '-' :: r1 =>
      match twoDigits? r1 with
      | none => none
      | some (m, r2) =>
        if 1 ≤ m ∧ m ≤ 12 then
          match r2 with
          | [] => some (y, m, 1)
          | '-' :: r3 =>
            match twoDigits? r3 with
            | some (d, []) =>
                if 1 ≤ d ∧ d ≤ daysInMonth y m then some (y, m, d) else none
            | _ => none
          | _ => none
        else none
    | _ => none

/-- Split a string at its first `T` (the date/time separator), the
separator itself dropped from the time side. -/
def splitAtT : List Char → List Char × Option (List Char)
  | [] => ([], none)
  | c :: cs =>
    if c = 'T' then ([], some cs)
    else
      match splitAtT cs with
      | (d, t) => (c :: d, t)

/-- Split the time-and-offset part at the first `Z`, `+` or `-`: the
clock body, and — when an offset is present — the offset with its
leading character kept. -/
def splitTz : List Char → List Char × Option (List Char)
  | [] => ([], none)
  | c :: cs =>
    if c = 'Z' ∨ c = '+' ∨ c = '-' then ([], some (c :: cs))
    else
      match splitTz cs with
      | (b, t) => (c :: b, t)

/-- The clock `HH:mm[:ss[.fff]]` as milliseconds from midnight: hours
at most `23` (or the special `24:00:00.000`), minutes and seconds at
most `59`, and the optional fraction a non-empty digit run read at
millisecond precision. -/
def parseTimeBody (l : List Char) : Option Int :=
  match twoDigits? l with
  | some (h, ':' :: r2) =>
    match twoDigits? r2 with
    | none => none
    | some (mi, r3) =>
      let secMs? : Option (Nat × Nat) :=
        match r3 with
        | [] => some (0, 0)
        | ':' :: r4 =>
          match twoDigits? r4 with
          | some (se, []) => some (se, 0)
          | some (se, '.' :: fr) =>
            if fr ≠ [] ∧ fr.all Char.isDigit then
              some (se, ((fr ++ ['0', '0', '0']).take 3).foldl
                (fun acc c => acc * 10 + (c.toNat - 48)) 0)
            else none
          | _ => none
        | _ => none
      match secMs? with
      | none => none
      | some (se, msv) =>
        if (h ≤ 23 ∧ mi ≤ 59 ∧ se ≤ 59) ∨ (h = 24 ∧ mi = 0 ∧ se = 0 ∧ msv = 0) then
          some ((h : Int) * 3600000 + mi * 60000 + se * 1000 + msv)
        else none
  | _ => none

/-- A timezone offset in minutes east of UTC: `Z` is zero, otherwise a
sign and `HH:mm` with hours at most `23` and minutes at most `59`. -/
def parseTzPart (l : List Char) : Option Int :=
  match l with
  | ['Z'] => some 0
  | '+' :: r =>
    match twoDigits? r with
    | some (h, ':' :: r2) =>
      match twoDigits? r2 with
      | some (mi, []) => if h ≤ 23 ∧ mi ≤ 59 then some ((h : Int) * 60 + mi) else none
      | _ => none
    | _ => none
  | '-' :: r =>
    match twoDigits? r with
    | some (h, ':' :: r2) =>
      match twoDigits? r2 with
      | some (mi, []) => if h ≤ 23 ∧ mi ≤ 59 then some (-((h : Int) * 60 + mi)) else none
      | _ => none
    | _ => none
  | _ => none

/-- `new Date(s)` for a string, as the UTC epoch day of the resulting
instant (the day `toISOString` renders).  This models the ECMAScript
date-time string format: a date `YYYY[-MM[-DD]]` with strict digit
counts and calendar day validation, optionally followed by
`THH:mm[:ss[.fff]]` and a `Z` or signed `HH:mm` offset.  A date-only
string is read as UTC midnight; a date-time without an offset is read
as local time, `tzOffset` standing for the host timezone offset (the
value of `getTimezoneOffset()`, in minutes, UTC minus local) in effect
at that local time, which is outside the program.  Instants beyond
`±8.64e15` milliseconds from the epoch are invalid.
Implementation-defined fallback parsing of strings outside the
standard format is beyond the model and rendered `none`. -/
def jsDateParse (tzOffset : Int) (s : String) : Option Int :=
  let utcMs? : Option Int :=
    match splitAtT s.data with
    | (dl, none) =>
      (parseDatePart dl).map fun ymd => daysFromCivil ymd.1 ymd.2.1 ymd.2.2 * 86400000
    | (dl, some tl) =>
      match parseDatePart dl with
      | none => none
      | some (y, m, d) =>
        match splitTz tl with
        | (bodyl, tzo) =>
          match parseTimeBody bodyl with
          | none => none
          | some timeMs =>
            match tzo with
            | some tzl =>
              (parseTzPart tzl).map fun off =>
                daysFromCivil y m d * 86400000 + timeMs - off * 60000
            | none => some (daysFromCivil y m d * 86400000 + timeMs + tzOffset * 60000)
  match utcMs? with
  | none => none
  | some ms =>
    if -8640000000000000 ≤ ms ∧ ms ≤ 8640000000000000 then some (ms.fdiv 86400000)
    else none

/-- The first ten characters of the `toISOString` rendering of UTC
midnight of day `n`: `YYYY-MM-DD` for years `0000`-`9999`, and for
expanded years (a sign and six year digits) the ten-character slice
`±YYYYYY-MM`. -/
def isoSlice10 (n : Int) : String :=
  match civilFromDays n with
  | (y, m, _) =>
    if 0 ≤ y ∧ y ≤ 9999 then formatDays n
    else (if y < 0 then "-" else "+") ++ zeroPad 6 y.natAbs ++ "-" ++ zeroPad 2 m.toNat

/-- A JSON scalar, as a persisted `dueAt` field may hold one: a string,
a numeric (integral) value, a boolean, or `null`.  Object- and
array-valued fields, whose date coercion runs through `ToPrimitive`,
are beyond the model. -/
inductive RawValue where
  | str (s : String)
  | num (n : Int)
  | bool (b : Bool)
  | nullv
  deriving DecidableEq, Repr

/-- `normalizeDate(value)`: falsy input (`undefined`, `null`, the
empty string, `0`, `NaN`, `false`) stays absent; otherwise
`new Date(value)` is taken, an invalid date degrades to absent, and a
valid one is rendered through `toISOString().slice(0, 10)`.  A numeric
value is an epoch-millisecond timestamp, valid within `±8.64e15`;
`true` coerces to the timestamp `1` (still day zero of the epoch). -/
def normalizeDate (tzOffset : Int) (value : Option RawValue) : Option String :=
  match value with
  | none => none
  | some (.str s) => if s = "" then none else (jsDateParse tzOffset s).map isoSlice10
  | some (.num n) =>
    if n = 0 then none
    else if -8640000000000000 ≤ n ∧ n ≤ 8640000000000000 then
      some (isoSlice10 (n.fdiv 86400000))
    else none
  | some (.bool b) => if b then some (isoSlice10 0) else none
  | some .nullv => none

/-- `normalizePriority(value)`: keep `low`/`med`/`high`, otherwise
absent. -/
def normalizePriority (value : Option String) : Option String :=
  match value with
  | some "low" => some "low"
  | some "med" => some "med"
  | some "high" => some "high"
  | _ => none

/-- A raw task record as found in a persisted JSON array: each field is
either absent-or-of-the-wrong-type (`none`) or a value of the expected
shape.  `completed` holds the JS truthiness of whatever was stored;
timestamps are modelled by their millisecond values as in `Task`. -/
structure RawTask where
  id : Option String
  title : Option String
  completed : Bool
  description : Option String
  createdAt : Option Nat
  updatedAt : Option Nat
  dueAt : Option RawValue
  priority : Option String
  deriving DecidableEq, Repr

/-- One element of a persisted task array: either not an object, or an
object with the raw fields above. -/
inductive RawEntry where
  | notObject
  | obj (r : RawTask)
  deriving DecidableEq, Repr

/-- A concrete raw record with no id, used by the C8 witness. -/
def rawNoId : RawTask :=
  { id := none, title := some "T", completed := false, description := none,
    createdAt := none, updatedAt := none, dueAt := none, priority := none }

/-- A concrete raw record with a day-overflow due date and an unknown
priority, used by the C8 witness. -/
def rawBadDue : RawTask :=
  { id := some "t9", title := some "T9", completed := true, description := none,
    createdAt := none, updatedAt := none, dueAt := some (.str "2024-02-31"),
    priority := some "urgent" }

/-- The normalized form of `rawBadDue`: the record is kept and both
malformed fields are coerced to absent. -/
def badDueResult : Task :=
  { id := "t9", title := "T9", completed := true, description := none,
    createdAt := 0, updatedAt := 0, dueAt := none, priority := none }

/-- `normalizeTask(task)`: drop records that are not objects or lack a
string `id` or `title`; otherwise coerce each remaining field, with
`now` (the current `new Date().toISOString()`) filling missing
timestamps. -/
def normalizeTask (tzOffset : Int) (now : Nat) (entry : RawEntry) : Option Task :=
  match entry with
  | .notObject => none
  | .obj r =>
    match r.id, r.title with
    | some i, some t =>
      some { id := i, title := t, completed := r.completed,
             description := r.description,
             createdAt := r.createdAt.getD now, updatedAt := r.updatedAt.getD now,
             dueAt := normalizeDate tzOffset r.dueAt,
             priority := normalizePriority r.priority }
    | _, _ => none

/-- The persisted blob under a `todo.tasks.v1.<accountId>` key: absent,
a string `JSON.parse` throws on, parseable but not an array, or an
array of raw entries. -/
inductive TasksBlob where
  | malformed
  | nonArray
  | arr (items : List RawEntry)
  deriving DecidableEq, Repr

/-- `loadTasks(accountId)`: absent, corrupt (caught, a warning is
logged) and non-array blobs all yield the empty collection; an array
is mapped through `normalizeTask` and the dropped records filtered
out. -/
def loadTasks (tzOffset : Int) (now : Nat) (blob : Option TasksBlob) : List Task :=
  match blob with
  | none => []
  | some .malformed => []
  | some .nonArray => []
  | some (.arr items) => items.filterMap (normalizeTask tzOffset now)

/-! ## Task store: update -/

/-- An account as returned to callers: id plus display name, never a
password hash. -/
structure Account where
  id : String
  displayName : String
  deriving DecidableEq, Repr

/-- A partial-field patch as passed to `updateTask` (the callers patch
`completed` and `title`; the model admits every content field).  A
`some` field is a key present in `nextFields`. -/
structure Patch where
  title : Option String := none
  completed : Option Bool := none
  description : Option (Option String) := none
  dueAt : Option (Option String) := none
  priority : Option (Option String) := none
  deriving DecidableEq, Repr

/-- One iteration of the `Object.entries(nextFields)` loop of
`updateTask`: an absent key leaves the accumulator unchanged; a
present key's value is compared with `!==` against the current field
and applied on difference, marking the task changed. -/
def patchStep {α : Type} [DecidableEq α] (cur : Task × Bool) (pf : Option α)
    (get : Task → α) (set : Task → α → Task) : Task × Bool :=
  match pf with
  | none => cur
  | some v => if get cur.1 ≠ v then (set cur.1 v, true) else cur

/-- The `Object.entries(nextFields)` loop of `updateTask`, iterated
over the five content fields a patch may carry. -/
def patchTask (p : Patch) (task : Task) : Task × Bool :=
  let r1 := patchStep (task, false) p.title (fun t => t.title) (fun t v => { t with title := v })
  let r2 := patchStep r1 p.completed (fun t => t.completed) (fun t v => { t with completed := v })
  let r3 := patchStep r2 p.description (fun t => t.description)
    (fun t v => { t with description := v })
  let r4 := patchStep r3 p.dueAt (fun t => t.dueAt) (fun t v => { t with dueAt := v })
  patchStep r4 p.priority (fun t => t.priority) (fun t v => { t with priority := v })

/-- Whether every field present in the patch already equals the task's
current value (the condition under which the `updateTask` loop marks
nothing changed). -/
def patchAgrees (p : Patch) (t : Task) : Bool :=
  p.title.all (fun v => v == t.title) &&
  p.completed.all (fun v => v == t.completed) &&
  p.description.all (fun v => v == t.description) &&
  p.dueAt.all (fun v => v == t.dueAt) &&
  p.priority.all (fun v => v == t.priority)

/-- The per-task body of the `tasks.map` in `updateTask`: non-matching
ids pass through; a matching id is patched, and on change gets
`updatedAt = now`.  The boolean is the task's contribution to
`changed`. -/
def updateOne (now : Nat) (id : String) (p : Patch) (task : Task) : Task × Bool :=
  if task.id ≠ id then (task, false)
  else
    let r := patchTask p task
    if r.2 then ({ r.1 with updatedAt := now }, true) else (task, false)

/-- The mutable application state `updateTask` touches: the current
account, the in-memory `tasks`, the persisted collection for that
account (what `saveTasks` last wrote), and the pending focus request. -/
structure AppState where
  currentAccount : Option Account
  tasks : List Task
  stored : List Task
  pendingFocus : Option Unit
  deriving DecidableEq, Repr

/-- `updateTask(id, nextFields)`: guarded by authentication; maps the
patch over the collection; when nothing changed it only clears the
pending focus, otherwise it persists the new collection (`saveTasks`)
and re-renders (rendering itself is outside the model). -/
def updateTask (now : Nat) (id : String) (p : Patch) (s : AppState) : AppState :=
  match s.currentAccount with
  | none => s
  | some _ =>
    let results := s.tasks.map (updateOne now id p)
    let tasks' := results.map Prod.fst
    let changed := results.any Prod.snd
    if !changed then { s with tasks := tasks', pendingFocus := none }
    else { s with tasks := tasks', stored := tasks' }

/-- A concrete task used by the C2 witness. -/
def sampleTask : Task :=
  { id := "t1", title := "T", completed := false, description := none,
    createdAt := 1, updatedAt := 1, dueAt := none, priority := none }

/-- A concrete authenticated one-task state used by the C2 witness. -/
def sampleState : AppState :=
  { currentAccount := some { id := "alice", displayName := "Alice" },
    tasks := [sampleTask], stored := [sampleTask], pendingFocus := some () }

/-! ## String primitives

`String.prototype.trim` and `toLowerCase` modelled at the
list-of-scalar-values level (the app's usernames are ordinary ASCII
text; `Char.isWhitespace`/`Char.toLower` agree with JS there). -/

/-- `String.prototype.trim`: strip leading and trailing whitespace. -/
def trimStr (s : String) : String :=
  String.mk (((s.data.dropWhile Char.isWhitespace).reverse.dropWhile Char.isWhitespace).reverse)

/-- `String.prototype.toLowerCase` on the app's username alphabet. -/
def toLowerStr (s : String) : String :=
  String.mk (s.data.map Char.toLower)

/-- `normalizeUsername(value)`: trim, then lowercase — the account's
primary key and storage-namespace key. -/
def normalizeUsername (value : String) : String :=
  toLowerStr (trimStr value)

/-! ## Password hashing

`hashPassword` uses WebCrypto SHA-256 rendered as lowercase hex when
the environment provides it, and otherwise falls back to
`btoa(unescape(encodeURIComponent(password)))`, i.e. base64 of the
password's UTF-8 bytes (the further plain-text fallback fires only when
`encodeURIComponent` throws, which needs a lone surrogate — values a
Lean `String` of scalar values cannot hold, except that `btoa` of the
empty string is itself the plain text).  The environment's WebCrypto
availability is threaded as an explicit boolean.  SHA-256 is modelled
bit-faithfully on naturals reduced mod 2^32. -/

/-- UTF-8 bytes of a scalar value (what `TextEncoder.encode`
produces per character). -/
def utf8Bytes (c : Nat) : List Nat :=
  if c < 0x80 then [c]
  else if c < 0x800 then [0xc0 + c / 64, 0x80 + c % 64]
  else if c < 0x10000 then [0xe0 + c / 4096, 0x80 + c / 64 % 64, 0x80 + c % 64]
  else [0xf0 + c / 262144, 0x80 + c / 4096 % 64, 0x80 + c / 64 % 64, 0x80 + c % 64]

/-- `TextEncoder.encode`: UTF-8 bytes of a string. -/
def utf8Encode (s : String) : List Nat :=
  s.data.flatMap fun c => utf8Bytes c.toNat

/-- Rotate a 32-bit word right by `n`. -/
def rotr32 (n x : Nat) : Nat :=
  ((x >>> n) ||| (x <<< (32 - n))) % 4294967296

/-- The 64 SHA-256 round constants. -/
def sha256K : List Nat :=
  [1116352408, 1899447441, 3049323471, 3921009573, 961987163,
   1508970993, 2453635748, 2870763221, 3624381080, 310598401,
   607225278, 1426881987, 1925078388, 2162078206, 2614888103,
   3248222580, 3835390401, 4022224774, 264347078, 604807628,
   770255983, 1249150122, 1555081692, 1996064986, 2554220882,
   2821834349, 2952996808, 3210313671, 3336571891, 3584528711,
   113926993, 338241895, 666307205, 773529912, 1294757372,
   1396182291, 1695183700, 1986661051, 2177026350, 2456956037,
   2730485921, 2820302411, 3259730800, 3345764771, 3516065817,
   3600352804, 4094571909, 275423344, 430227734, 506948616,
   659060556, 883997877, 958139571, 1322822218, 1537002063,
   1747873779, 1955562222, 2024104815, 2227730452, 2361852424,
   2428436474, 2756734187, 3204031479, 3329325298]

/-- The SHA-256 initial hash value. -/
def sha256H0 : Array Nat :=
  #[1779033703, 3144134277, 1013904242,
    2773480762, 1359893119, 2600822924,
    528734635, 1541459225]

/-- Big-endian word from four bytes. -/
def wordOfBytes (bs : List Nat) : Nat :=
  bs.foldl (fun acc b => acc * 256 + b) 0

/-- SHA-256 message padding: `0x80`, zeros to 56 mod 64, then the
bit length as eight big-endian bytes. -/
def padMessage (m : List Nat) : List Nat :=
  let len := m.length
  let zeros := (119 - len % 64) % 64
  let bitLen := 8 * len
  m ++ [0x80] ++ List.replicate zeros 0 ++
    [bitLen / 72057594037927936 % 256, bitLen / 281474976710656 % 256,
     bitLen / 1099511627776 % 256, bitLen / 4294967296 % 256,
     bitLen / 16777216 % 256, bitLen / 65536 % 256, bitLen / 256 % 256, bitLen % 256]

/-- Extend sixteen message words to the 64-entry SHA-256 message
schedule. -/
def extendSchedule (w : Array Nat) : Array Nat :=
  (List.range 48).foldl
    (fun w i =>
      let j := i + 16
      let s0 := rotr32 7 (w.getD (j - 15) 0) ^^^ rotr32 18 (w.getD (j - 15) 0) ^^^ (w.getD (j - 15) 0 >>> 3)
      let s1 := rotr32 17 (w.getD (j - 2) 0) ^^^ rotr32 19 (w.getD (j - 2) 0) ^^^ (w.getD (j - 2) 0 >>> 10)
      w.push ((w.getD (j - 16) 0 + s0 + w.getD (j - 7) 0 + s1) % 4294967296))
    w

/-- One SHA-256 compression round over the working variables. -/
def sha256Round (k wi : Nat) (st : Array Nat) : Array Nat :=
  let a := st.getD 0 0
  let b := st.getD 1 0
  let c := st.getD 2 0
  let d := st.getD 3 0
  let e := st.getD 4 0
  let f := st.getD 5 0
  let g := st.getD 6 0
  let h := st.getD 7 0
  let s1 := rotr32 6 e ^^^ rotr32 11 e ^^^ rotr32 25 e
  let ch := (e &&& f) ^^^ ((e ^^^ 0xffffffff) &&& g)
  let temp1 := (h + s1 + ch + k + wi) % 4294967296
  let s0 := rotr32 2 a ^^^ rotr32 13 a ^^^ rotr32 22 a
  let maj := (a &&& b) ^^^ (a &&& c) ^^^ (b &&& c)
  let temp2 := (s0 + maj) % 4294967296
  #[(temp1 + temp2) % 4294967296, a, b, c, (d + temp1) % 4294967296, e, f, g]

/-- Compress one 64-byte block into the running hash. -/
def compressBlock (h : Array Nat) (block : List Nat) : Array Nat :=
  let w := extendSchedule (((block.toChunks 4).map wordOfBytes).toArray)
  let st := (List.range 64).foldl
    (fun st i => sha256Round (sha256K.getD i 0) (w.getD i 0) st) h
  #[(h.getD 0 0 + st.getD 0 0) % 4294967296, (h.getD 1 0 + st.getD 1 0) % 4294967296,
    (h.getD 2 0 + st.getD 2 0) % 4294967296, (h.getD 3 0 + st.getD 3 0) % 4294967296,
    (h.getD 4 0 + st.getD 4 0) % 4294967296, (h.getD 5 0 + st.getD 5 0) % 4294967296,
    (h.getD 6 0 + st.getD 6 0) % 4294967296, (h.getD 7 0 + st.getD 7 0) % 4294967296]

/-- Big-endian bytes of a 32-bit word. -/
def bytesOfWord (w : Nat) : List Nat :=
  [w / 16777216 % 256, w / 65536 % 256, w / 256 % 256, w % 256]

/-- SHA-256 digest (32 bytes) of a byte sequence. -/
def sha256 (msg : List Nat) : List Nat :=
  let hh := ((padMessage msg).toChunks 64).foldl compressBlock sha256H0
  (hh.toList.map bytesOfWord).flatten

/-- The sixteen lowercase hex digits. -/
def hexChars : List Char :=
  "0123456789abcdef".data

/-- `byte.toString(16).padStart(2, '0')` for a byte value. -/
def byteToHex (b : Nat) : String :=
  String.mk [hexChars.getD (b / 16) '0', hexChars.getD (b % 16) '0']

/-- Whether a character is a lowercase hexadecimal digit. -/
def isLowerHexChar (c : Char) : Bool := decide (c ∈ hexChars)

/-- The base64 alphabet used by `btoa`. -/
def base64Chars : List Char :=
  "ABCDEFGHIJKLMNOPQRSTUVWXYZabcdefghijklmnopqrstuvwxyz0123456789+/".data

/-- `btoa` on a byte sequence: standard base64 with `=` padding. -/
def btoaOfBytes : List Nat → List Char
  | [] => []
  | [b1] =>
    [base64Chars.getD (b1 / 4) 'A', base64Chars.getD (b1 % 4 * 16) 'A', '=', '=']
  | [b1, b2] =>
    [base64Chars.getD (b1 / 4) 'A', base64Chars.getD (b1 % 4 * 16 + b2 / 16) 'A',
     base64Chars.getD (b2 % 16 * 4) 'A', '=']
  | b1 :: b2 :: b3 :: rest =>
    base64Chars.getD (b1 / 4) 'A' :: base64Chars.getD (b1 % 4 * 16 + b2 / 16) 'A' ::
    base64Chars.getD (b2 % 16 * 4 + b3 / 64) 'A' :: base64Chars.getD (b3 % 64) 'A' ::
    btoaOfBytes rest

/-- `hashPassword(password)` with the environment's WebCrypto
availability explicit: the WebCrypto path hex-renders the SHA-256
digest of the UTF-8 bytes; the fallback is `btoa` of those bytes. -/
def hashPassword (webCrypto : Bool) (password : String) : String :=
  if webCrypto then
    String.join ((sha256 (utf8Encode password)).map byteToHex)
  else
    String.mk (btoaOfBytes (utf8Encode password))

/-- Componentwise decidable equality for `Except` results. -/
instance {ε α : Type} [DecidableEq ε] [DecidableEq α] : DecidableEq (Except ε α) := fun a b =>
  match a, b with
  | .error e1, .error e2 => decidable_of_iff (e1 = e2) (by simp)
  | .ok a1, .ok a2 => decidable_of_iff (a1 = a2) (by simp)
  | .error _, .ok _ => isFalse (by simp)
  | .ok _, .error _ => isFalse (by simp)

/-! ## Credential store -/

/-- A stored account record under the normalized username key in the
`todo.users.v1` table. -/
structure UserRecord where
  passwordHash : String
  displayName : String
  createdAt : Nat
  deriving DecidableEq, Repr

/-- The persisted users table, keyed by normalized username. -/
abbrev Users := List (String × UserRecord)

/-- The spec's error taxonomy for the `Error` messages the source
throws, classified by throw site. -/
inductive AuthError where
  | validationError (msg : String)
  | conflictError (msg : String)
  | notFoundError (msg : String)
  | invalidCredentialError (msg : String)
  deriving DecidableEq, Repr

/-- `registerUser(username, password)`: validate lengths, reject a
taken normalized username, then hash, store (`saveUsers`) and return
the hash-free account.  The returned table is the persisted `users`
table after the call (unchanged on every thrown error, all of which
precede `saveUsers`). -/
def registerUser (webCrypto : Bool) (now : Nat) (store : Users)
    (username password : String) : Users × Except AuthError Account :=
  let cleanName := trimStr username
  if cleanName.length < 3 then
    (store, .error (.validationError "Username must be at least 3 characters long."))
  else if password.length < 6 then
    (store, .error (.validationError "Password must be at least 6 characters long."))
  else
    let normalized := normalizeUsername cleanName
    if normalized = "" then
      (store, .error (.validationError "Username is required."))
    else
      match store.lookup normalized with
      | some _ => (store, .error (.conflictError "That username is already taken."))
      | none =>
        let passwordHash := hashPassword webCrypto password
        ((normalized, { passwordHash := passwordHash, displayName := cleanName,
                        createdAt := now }) :: store,
         .ok { id := normalized, displayName := cleanName })

/-- `authenticateUser(username, password)`: look up the normalized
username, compare password hashes, and return the hash-free account
with the registration-time display name (falling back to the entered
casing if the stored one is empty). -/
def authenticateUser (webCrypto : Bool) (store : Users)
    (username password : String) : Except AuthError Account :=
  let cleanName := trimStr username
  let normalized := normalizeUsername cleanName
  if normalized = "" then
    .error (.validationError "Enter your username to sign in.")
  else
    match store.lookup normalized with
    | none => .error (.notFoundError "Account not found.")
    | some record =>
      let passwordHash := hashPassword webCrypto password
      if record.passwordHash ≠ passwordHash then
        .error (.invalidCredentialError "Incorrect password.")
      else
        .ok { id := normalized,
              displayName := if record.displayName ≠ "" then record.displayName else cleanName }

/-! ## Session manager -/

/-- The persisted `todo.session.v1` blob: a string `JSON.parse` throws
on, a parse result that is not an object, or an object whose `id` and
`displayName` fields may each be absent or non-string (`none`). -/
inductive SessionBlob where
  | malformed
  | nonObject
  | obj (id : Option String) (displayName : Option String)
  deriving DecidableEq, Repr

/-- The storage state `loadSession` touches: the session pointer and
the users table. -/
structure SessionState where
  session : Option SessionBlob
  users : Users
  deriving DecidableEq, Repr

/-- `loadSession()`: absent pointer means signed out; an unparseable
blob is removed (caught, a warning is logged); a parse result without a
truthy string `id` is ignored; a pointer whose account no longer exists
is removed; otherwise the resolved account is returned with
`record.displayName || parsed.displayName || id`. -/
def loadSession (st : SessionState) : SessionState × Option Account :=
  match st.session with
  | none => (st, none)
  | some .malformed => ({ st with session := none }, none)
  | some .nonObject => (st, none)
  | some (.obj none _) => (st, none)
  | some (.obj (some id) dn) =>
    if id = "" then (st, none)
    else
      match st.users.lookup id with
      | none => ({ st with session := none }, none)
      | some record =>
        let displayName :=
          if record.displayName ≠ "" then record.displayName
          else match dn with
            | some d => if d ≠ "" then d else id
            | none => id
        (st, some { id := id, displayName := displayName })

/-! ## Supporting lemmas -/

/-- `getWeekRangeISO` on a parseable anchor, with the Monday offset
written out. -/
lemma getWeekRangeISO_of_parse {s : String} {n : Int} (h : parseISODate s = some n) :
    getWeekRangeISO s =
      some { start := formatDays (n + (if (n + 4) % 7 = 0 then -6 else 1 - (n + 4) % 7)),
             end_ := formatDays (n + (if (n + 4) % 7 = 0 then -6 else 1 - (n + 4) % 7) + 6) } := by
  simp [getWeekRangeISO, h]

/-- Membership is invariant under `sortTasks` (sorting permutes its
input). -/
lemma mem_sortTasks {t : Task} {k : String} {l : List Task} :
    t ∈ sortTasks k l ↔ t ∈ l := by
  unfold sortTasks
  split_ifs <;> exact List.mem_insertionSort _

/-- A string below the empty string is empty. -/
lemma eq_empty_of_le_empty {s : String} (h : s ≤ "") : s = "" := by
  rcases hd : s.data with _ | ⟨c, cs⟩
  · exact String.ext (by rw [hd])
  · exfalso
    have hlt : "" < s := by
      rw [String.lt_iff_toList_lt]
      show ([] : List Char) < s.data
      rw [hd]
      exact List.nil_lt_cons c cs
    exact absurd hlt (not_lt.mpr h)

/-- Rendered dates are never the empty string (they contain the two
dashes). -/
lemma formatDays_ne_empty (n : Int) : formatDays n ≠ "" := by
  unfold formatDays
  rcases hc : civilFromDays n with ⟨y, m, d⟩
  intro h
  have hlen := congrArg String.length h
  unfold formatISODate at hlen
  rw [String.length_append, String.length_append, String.length_append,
    String.length_append] at hlen
  have h1 : ("-" : String).length = 1 := rfl
  have h0 : ("" : String).length = 0 := rfl
  omega

/-- The start of a computed week range is never the empty string. -/
lemma start_ne_empty_of_weekRange {anchor : String} {r : WeekRange}
    (hw : getWeekRangeISO anchor = some r) : r.start ≠ "" := by
  rcases hp : parseISODate anchor with _ | n
  · rw [getWeekRangeISO, hp] at hw
    exact absurd hw (by simp)
  · rw [getWeekRangeISO_of_parse hp] at hw
    have h2 := Option.some.inj hw
    rw [← h2]
    exact formatDays_ne_empty _

/-- Membership in the `day` agenda window. -/
lemma mem_agendaWindow_day {anchor : String} {l : List Task} {t : Task} :
    t ∈ agendaWindow "day" anchor l ↔
      t ∈ l ∧ truthyStr t.dueAt = true ∧ t.dueAt = some anchor := by
  unfold agendaWindow
  rw [if_pos rfl]
  simp only [List.mem_filter, Bool.and_eq_true, beq_iff_eq]
  try tauto

/-- Membership in the `week` agenda window. -/
lemma mem_agendaWindow_week {anchor : String} {r : WeekRange} {l : List Task} {t : Task}
    (hw : getWeekRangeISO anchor = some r) :
    t ∈ agendaWindow "week" anchor l ↔
      t ∈ l ∧ truthyStr t.dueAt = true ∧
        r.start ≤ t.dueAt.getD "" ∧ t.dueAt.getD "" ≤ r.end_ := by
  unfold agendaWindow
  rw [if_neg (by decide), if_pos rfl, hw]
  simp only [List.mem_filter, Bool.and_eq_true, decide_eq_true_eq]
  tauto

/-- The `week` agenda window on an anchor outside the modelled date
domain. -/
lemma agendaWindow_week_none {anchor : String} {l : List Task}
    (hw : getWeekRangeISO anchor = none) : agendaWindow "week" anchor l = [] := by
  unfold agendaWindow
  rw [if_neg (by decide), if_pos rfl, hw]

/-- Every task of the agenda window comes from the input list. -/
lemma mem_of_mem_agendaWindow {t : Task} {sc d : String} {l : List Task}
    (h : t ∈ agendaWindow sc d l) : t ∈ l := by
  unfold agendaWindow at h
  split_ifs at h
  · exact (List.mem_filter.mp h).1
  · rcases hw : getWeekRangeISO d with _ | r <;> rw [hw] at h
    · simp at h
    · exact (List.mem_filter.mp h).1
  · exact h

/-- The `dueAt` branch of `sortTasks`. -/
lemma sortTasks_dueAt (l : List Task) :
    sortTasks "dueAt" l = l.insertionSort fun a b => cmpDueAt a b ≤ 0 := by
  unfold sortTasks
  rw [if_pos rfl]

/-- Unfolded description of the `dueAt` comparator's non-positive
values. -/
lemma cmpDueAt_le_iff (a b : Task) :
    cmpDueAt a b ≤ 0 ↔
      (truthyStr a.dueAt = false ∧ truthyStr b.dueAt = false ∧ b.createdAt ≤ a.createdAt) ∨
      (truthyStr a.dueAt = true ∧ truthyStr b.dueAt = false) ∨
      (truthyStr a.dueAt = true ∧ truthyStr b.dueAt = true ∧
        (dateVal (a.dueAt.getD "") < dateVal (b.dueAt.getD "") ∨
          (dateVal (a.dueAt.getD "") = dateVal (b.dueAt.getD "") ∧
            b.createdAt ≤ a.createdAt))) := by
  unfold cmpDueAt compareCreated
  cases hA : truthyStr a.dueAt <;> cases hB : truthyStr b.dueAt <;>
    simp <;> (try split_ifs) <;> omega

/-- The `dueAt` comparator relation is transitive. -/
lemma leDue_trans : ∀ a b c : Task,
    cmpDueAt a b ≤ 0 → cmpDueAt b c ≤ 0 → cmpDueAt a c ≤ 0 := by
  intro a b c h1 h2
  rw [cmpDueAt_le_iff] at h1 h2 ⊢
  rcases h1 with ⟨hA, hB, h⟩ | ⟨hA, hB⟩ | ⟨hA, hB, h⟩ <;>
    rcases h2 with ⟨hB2, hC, h2⟩ | ⟨hB2, hC⟩ | ⟨hB2, hC, h2⟩ <;>
    simp_all <;> omega

/-- The `dueAt` comparator relation is total. -/
lemma leDue_total : ∀ a b : Task, cmpDueAt a b ≤ 0 ∨ cmpDueAt b a ≤ 0 := by
  intro a b
  rw [cmpDueAt_le_iff, cmpDueAt_le_iff]
  cases hA : truthyStr a.dueAt <;> cases hB : truthyStr b.dueAt <;> simp <;> omega

/-- The day number of a task's due date, when present and parseable. -/
def dueDay (t : Task) : Option Int := t.dueAt.bind parseISODate

/-- Whether the task's optional `dueAt` is a well-formed date (always
true for tasks produced by the app, whose due dates come from
`normalizeDate`). -/
def hasValidDueB (t : Task) : Bool :=
  match t.dueAt with
  | some d => (parseISODate d).isSome
  | none => true

/-- The empty string is not a date. -/
lemma parseISODate_empty : parseISODate "" = none := by decide

/-- A task with a well-formed present due date has a parseable,
non-empty, truthy `dueAt` and a day number. -/
lemma validDue_facts {t : Task} (ht : hasValidDueB t = true) {d : String}
    (hd : t.dueAt = some d) :
    ∃ k, parseISODate d = some k ∧ truthyStr t.dueAt = true ∧
      dueDay t = some k ∧ dateVal d = 86400000 * k := by
  unfold hasValidDueB at ht
  rw [hd] at ht
  simp only [Option.isSome_iff_exists] at ht
  obtain ⟨k, hk⟩ := ht
  have hne : d ≠ "" := by
    intro he
    rw [he, parseISODate_empty] at hk
    cases hk
  refine ⟨k, hk, ?_, ?_, ?_⟩
  · rw [hd]; simpa [truthyStr] using hne
  · unfold dueDay; rw [hd]; simpa using hk
  · unfold dateVal; rw [hk]; rfl

/-- A non-positive comparator value between tasks with well-formed due
dates yields the spec's ordering facts. -/
lemma leDue_imp_ordered {a b : Task} (ha : hasValidDueB a = true) (hb : hasValidDueB b = true)
    (h : cmpDueAt a b ≤ 0) :
    (dueDay a = none → dueDay b = none) ∧
    (∀ ka kb, dueDay a = some ka → dueDay b = some kb → ka ≤ kb) ∧
    (dueDay a = dueDay b → b.createdAt ≤ a.createdAt) := by
  rw [cmpDueAt_le_iff] at h
  rcases hda : a.dueAt with _ | da <;> rcases hdb : b.dueAt with _ | db
  · -- both absent
    have hta : truthyStr a.dueAt = false := by rw [hda]; rfl
    have htb : truthyStr b.dueAt = false := by rw [hdb]; rfl
    have hddb : dueDay b = none := by unfold dueDay; rw [hdb]; rfl
    have hdda : dueDay a = none := by unfold dueDay; rw [hda]; rfl
    refine ⟨fun _ => hddb, ?_, ?_⟩
    · intro ka kb hka _
      rw [hdda] at hka
      cases hka
    · intro _
      rcases h with ⟨_, _, hc⟩ | ⟨hA, _⟩ | ⟨hA, _⟩
      · exact hc
      · rw [hta] at hA; cases hA
      · rw [hta] at hA; cases hA
  · -- a absent, b present: the comparator value is 1, impossible
    obtain ⟨kb, _, htb, _, _⟩ := validDue_facts hb hdb
    have hta : truthyStr a.dueAt = false := by rw [hda]; rfl
    exfalso
    rcases h with ⟨_, hB, _⟩ | ⟨hA, _⟩ | ⟨hA, _⟩
    · rw [htb] at hB; cases hB
    · rw [hta] at hA; cases hA
    · rw [hta] at hA; cases hA
  · -- a present, b absent: every conclusion is vacuous
    obtain ⟨ka, _, _, hdda, _⟩ := validDue_facts ha hda
    have hddb : dueDay b = none := by unfold dueDay; rw [hdb]; rfl
    refine ⟨?_, ?_, ?_⟩
    · intro hn
      rw [hdda] at hn
      cases hn
    · intro ka' kb' _ hkb'
      rw [hddb] at hkb'
      cases hkb'
    · intro he
      rw [hdda, hddb] at he
      cases he
  · -- both present
    obtain ⟨ka, _, hta, hdda, hva⟩ := validDue_facts ha hda
    obtain ⟨kb, _, htb, hddb, hvb⟩ := validDue_facts hb hdb
    have hget : (a.dueAt.getD "") = da := by rw [hda]; rfl
    have hget2 : (b.dueAt.getD "") = db := by rw [hdb]; rfl
    rcases h with ⟨hA, _, _⟩ | ⟨_, hB⟩ | ⟨_, _, hcmp⟩
    · rw [hta] at hA; cases hA
    · rw [htb] at hB; cases hB
    rw [hget, hget2, hva, hvb] at hcmp
    refine ⟨?_, ?_, ?_⟩
    · intro hn
      rw [hdda] at hn
      cases hn
    · intro ka' kb' hka' hkb'
      rw [hdda] at hka'
      rw [hddb] at hkb'
      cases hka'
      cases hkb'
      omega
    · intro he
      rw [hdda, hddb] at he
      cases he
      omega

/-- A loop iteration whose field agrees with the accumulated task is
the identity. -/
lemma patchStep_agrees {α : Type} [DecidableEq α] [BEq α] [LawfulBEq α]
    (get : Task → α) (set : Task → α → Task) {t : Task} {b : Bool} {pf : Option α}
    (h : pf.all (fun v => v == get t) = true) : patchStep (t, b) pf get set = (t, b) := by
  rcases pf with _ | v
  · rfl
  · have hv : v = get t := by simpa [Option.all] using h
    simp only [patchStep]
    rw [if_neg (by simp [hv])]

/-- A loop iteration never resets the changed flag. -/
lemma patchStep_snd_mono {α : Type} [DecidableEq α] {cur : Task × Bool} {pf : Option α}
    {get : Task → α} {set : Task → α → Task}
    (h : cur.2 = true) : (patchStep cur pf get set).2 = true := by
  rcases pf with _ | v
  · exact h
  · simp only [patchStep]
    split_ifs <;> simp [h]

/-- A loop iteration whose present field differs from the accumulated
task sets the changed flag. -/
lemma patchStep_disagrees {α : Type} [DecidableEq α] [BEq α] [LawfulBEq α]
    (get : Task → α) (set : Task → α → Task) {t : Task} {b : Bool} {pf : Option α}
    (h : pf.all (fun v => v == get t) = false) : (patchStep (t, b) pf get set).2 = true := by
  rcases pf with _ | v
  · simp [Option.all] at h
  · have hv : v ≠ get t := by simpa [Option.all] using h
    simp only [patchStep]
    rw [if_pos (by simp only [ne_eq]; exact fun he => hv he.symm)]

/-- A patch whose present fields all equal the task's current values
leaves the task untouched and reports no change. -/
lemma patchTask_of_agrees {p : Patch} {t : Task} (h : patchAgrees p t = true) :
    patchTask p t = (t, false) := by
  unfold patchAgrees at h
  simp only [Bool.and_eq_true] at h
  obtain ⟨⟨⟨⟨h1, h2⟩, h3⟩, h4⟩, h5⟩ := h
  simp only [patchTask]
  rw [patchStep_agrees (fun t => t.title) (fun t v => { t with title := v }) h1,
    patchStep_agrees (fun t => t.completed) (fun t v => { t with completed := v }) h2,
    patchStep_agrees (fun t => t.description) (fun t v => { t with description := v }) h3,
    patchStep_agrees (fun t => t.dueAt) (fun t v => { t with dueAt := v }) h4,
    patchStep_agrees (fun t => t.priority) (fun t v => { t with priority := v }) h5]

/-- A patch some present field of which differs from the task's
current value reports a change. -/
lemma patchTask_changed {p : Patch} {t : Task} (h : patchAgrees p t = false) :
    (patchTask p t).2 = true := by
  unfold patchAgrees at h
  simp only [patchTask]
  by_cases h1 : p.title.all (fun v => v == t.title) = true
  · rw [patchStep_agrees (fun t => t.title) (fun t v => { t with title := v }) h1]
    by_cases h2 : p.completed.all (fun v => v == t.completed) = true
    · rw [patchStep_agrees (fun t => t.completed) (fun t v => { t with completed := v }) h2]
      by_cases h3 : p.description.all (fun v => v == t.description) = true
      · rw [patchStep_agrees (fun t => t.description)
          (fun t v => { t with description := v }) h3]
        by_cases h4 : p.dueAt.all (fun v => v == t.dueAt) = true
        · rw [patchStep_agrees (fun t => t.dueAt) (fun t v => { t with dueAt := v }) h4]
          by_cases h5 : p.priority.all (fun v => v == t.priority) = true
          · rw [h1, h2, h3, h4, h5] at h
            simp at h
          · exact patchStep_disagrees _ _ (by simpa using h5)
        · exact patchStep_snd_mono (patchStep_disagrees _ _ (by simpa using h4))
      · exact patchStep_snd_mono (patchStep_snd_mono
          (patchStep_disagrees _ _ (by simpa using h3)))
    · exact patchStep_snd_mono (patchStep_snd_mono (patchStep_snd_mono
        (patchStep_disagrees _ _ (by simpa using h2))))
  · exact patchStep_snd_mono (patchStep_snd_mono (patchStep_snd_mono (patchStep_snd_mono
      (patchStep_disagrees _ _ (by simpa using h1)))))

/-- `updateOne` on a task whose id does not match. -/
lemma updateOne_other {now : Nat} {id : String} {p : Patch} {t : Task} (hid : t.id ≠ id) :
    updateOne now id p t = (t, false) := by
  unfold updateOne
  rw [if_pos hid]

/-- `updateOne` on a matching task the patch agrees with. -/
lemma updateOne_agrees {now : Nat} {id : String} {p : Patch} {t : Task}
    (h : patchAgrees p t = true) : updateOne now id p t = (t, false) := by
  unfold updateOne
  by_cases hid : t.id = id
  · rw [if_neg (by simpa using hid), patchTask_of_agrees h]
    simp
  · rw [if_pos hid]

/-- `updateOne` on a matching task the patch changes. -/
lemma updateOne_changed {now : Nat} {id : String} {p : Patch} {t : Task}
    (hid : t.id = id) (h : patchAgrees p t = false) :
    updateOne now id p t = ({ (patchTask p t).1 with updatedAt := now }, true) := by
  unfold updateOne
  rw [if_neg (by simpa using hid)]
  simp [patchTask_changed h]

/-- Lowercasing preserves non-emptiness. -/
lemma toLowerStr_ne_empty {s : String} (h : s ≠ "") : toLowerStr s ≠ "" := by
  intro he
  have hd : s.data.map Char.toLower = [] := congrArg String.data he
  rcases hs : s.data with _ | ⟨c, cs⟩
  · exact h (String.ext hs)
  · rw [hs] at hd
    simp at hd

/-- A non-empty trim result contains a non-whitespace character. -/
lemma trimStr_has_nonWS {s : String} (h : trimStr s ≠ "") :
    ∃ c ∈ (trimStr s).data, c.isWhitespace = false := by
  have hdata : (trimStr s).data =
      (((s.data.dropWhile Char.isWhitespace).reverse.dropWhile Char.isWhitespace).reverse) := rfl
  set M := ((s.data.dropWhile Char.isWhitespace).reverse.dropWhile Char.isWhitespace) with hM
  have hMne : M ≠ [] := by
    intro hnil
    apply h
    apply String.ext
    rw [hdata, hnil]
    rfl
  refine ⟨M.head hMne, ?_, ?_⟩
  · rw [hdata]
    exact List.mem_reverse.mpr (List.head_mem hMne)
  · exact List.head_dropWhile_not Char.isWhitespace
      (List.dropWhile Char.isWhitespace s.data).reverse hMne

/-- An all-whitespace string trims to the empty string, and
conversely a trim result of the empty string means the input was all
whitespace. -/
lemma allWS_of_trimStr_eq_empty {s : String} (h : trimStr s = "") :
    ∀ c ∈ s.data, c.isWhitespace = true := by
  intro c hc
  have hdata : (((s.data.dropWhile Char.isWhitespace).reverse.dropWhile
      Char.isWhitespace).reverse) = [] := congrArg String.data h
  rw [List.reverse_eq_nil_iff, List.dropWhile_eq_nil_iff] at hdata
  have hdrop : ∀ x ∈ s.data.dropWhile Char.isWhitespace, x.isWhitespace = true := by
    intro x hx
    exact hdata x (List.mem_reverse.mpr hx)
  have hc2 : c ∈ s.data.takeWhile Char.isWhitespace ++ s.data.dropWhile Char.isWhitespace := by
    rw [List.takeWhile_append_dropWhile]
    exact hc
  rcases List.mem_append.mp hc2 with htk | hdp
  · exact List.mem_takeWhile_imp htk
  · exact hdrop c hdp

/-- Trimming an already-trimmed non-empty string keeps it non-empty. -/
lemma trimStr_trim_ne_empty {u : String} (h : trimStr u ≠ "") :
    trimStr (trimStr u) ≠ "" := by
  obtain ⟨c, hc, hcw⟩ := trimStr_has_nonWS h
  intro he
  rw [allWS_of_trimStr_eq_empty he c hc] at hcw
  cases hcw

/-- A username whose trimmed form is non-empty normalizes to a
non-empty key. -/
lemma normalizeUsername_trim_ne_empty {u : String} (h : trimStr u ≠ "") :
    normalizeUsername (trimStr u) ≠ "" :=
  toLowerStr_ne_empty (trimStr_trim_ne_empty h)

/-- Strings of length at least three are non-empty. -/
lemma ne_empty_of_three_le {s : String} (h : 3 ≤ s.length) : s ≠ "" := by
  intro he
  rw [he] at h
  exact absurd h (by decide)

/-! ## Claims -/

/-- C4: for every date, `weekRange` returns the Monday-to-Sunday span
containing that date, both endpoints inclusive as `YYYY-MM-DD`
strings: the start day has weekday Monday, the end day (start + 6) has
weekday Sunday, and the anchor lies between them; in particular
`weekRange("2024-01-01")` is `{start: "2024-01-01", end:
"2024-01-07"}` and `weekRange("2024-01-07")` (a Sunday, hence the last
day of its week) yields the same range. -/
theorem claim_C4 :
    (∀ s n, parseISODate s = some n →
      ∃ m, getWeekRangeISO s = some { start := formatDays m, end_ := formatDays (m + 6) } ∧
        (m + 4) % 7 = 1 ∧ (m + 6 + 4) % 7 = 0 ∧ m ≤ n ∧ n ≤ m + 6) ∧
    getWeekRangeISO "2024-01-01" = some { start := "2024-01-01", end_ := "2024-01-07" } ∧
    getWeekRangeISO "2024-01-07" = some { start := "2024-01-01", end_ := "2024-01-07" } := by
  refine ⟨?_, by decide, by decide⟩
  intro s n h
  refine ⟨n + (if (n + 4) % 7 = 0 then -6 else 1 - (n + 4) % 7),
    getWeekRangeISO_of_parse h, ?_, ?_, ?_, ?_⟩ <;> split_ifs with h0 <;> omega

/-- C1: under the `dueAt` sort key the visible sequence orders dated
tasks ascending by due date, places undated tasks after all dated
ones, and breaks equal or both-absent due dates by `createdAt`
descending — stated pairwise over the visible sequence of any task
collection whose due dates are well-formed. -/
theorem claim_C1 (tasks : List Task) (currentFilter agendaScope agendaDate : String)
    (hwf : ∀ t ∈ tasks, hasValidDueB t = true) :
    (getVisibleTasks tasks currentFilter agendaScope agendaDate "dueAt").Pairwise
      (fun a b =>
        (dueDay a = none → dueDay b = none) ∧
        (∀ ka kb, dueDay a = some ka → dueDay b = some kb → ka ≤ kb) ∧
        (dueDay a = dueDay b → b.createdAt ≤ a.createdAt)) := by
  unfold getVisibleTasks
  rw [sortTasks_dueAt]
  haveI : IsTotal Task (fun a b => cmpDueAt a b ≤ 0) := ⟨leDue_total⟩
  haveI : IsTrans Task (fun a b => cmpDueAt a b ≤ 0) := ⟨leDue_trans⟩
  have hs := List.sorted_insertionSort (fun a b => cmpDueAt a b ≤ 0)
    (agendaWindow agendaScope agendaDate (statusFilter currentFilter tasks))
  refine List.Pairwise.imp_of_mem ?_ hs
  intro a b hamem hbmem hab
  have ha : hasValidDueB a = true :=
    hwf a (List.mem_filter.mp (mem_of_mem_agendaWindow
      ((List.mem_insertionSort _).mp hamem))).1
  have hb : hasValidDueB b = true :=
    hwf b (List.mem_filter.mp (mem_of_mem_agendaWindow
      ((List.mem_insertionSort _).mp hbmem))).1
  exact leDue_imp_ordered ha hb hab

/-- Witness for C1 on a concrete four-task collection (two tasks share
the due date 2024-03-01, one is due 2024-03-05, one is undated). -/
theorem claim_C1_witness :
    (∀ t ∈ ([{ id := "w1", title := "W1", completed := false, description := none,
               createdAt := 100, updatedAt := 100, dueAt := some "2024-03-05", priority := none },
             { id := "w2", title := "W2", completed := false, description := none,
               createdAt := 50, updatedAt := 50, dueAt := none, priority := none },
             { id := "w3", title := "W3", completed := false, description := none,
               createdAt := 10, updatedAt := 10, dueAt := some "2024-03-01", priority := none },
             { id := "w4", title := "W4", completed := false, description := none,
               createdAt := 99, updatedAt := 99, dueAt := some "2024-03-01", priority := none }] :
        List Task), hasValidDueB t = true) ∧
    (getVisibleTasks
        [{ id := "w1", title := "W1", completed := false, description := none,
           createdAt := 100, updatedAt := 100, dueAt := some "2024-03-05", priority := none },
         { id := "w2", title := "W2", completed := false, description := none,
           createdAt := 50, updatedAt := 50, dueAt := none, priority := none },
         { id := "w3", title := "W3", completed := false, description := none,
           createdAt := 10, updatedAt := 10, dueAt := some "2024-03-01", priority := none },
         { id := "w4", title := "W4", completed := false, description := none,
           createdAt := 99, updatedAt := 99, dueAt := some "2024-03-01", priority := none }]
        "all" "all" "" "dueAt").Pairwise
      (fun a b =>
        (dueDay a = none → dueDay b = none) ∧
        (∀ ka kb, dueDay a = some ka → dueDay b = some kb → ka ≤ kb) ∧
        (dueDay a = dueDay b → b.createdAt ≤ a.createdAt)) :=
  ⟨by decide, claim_C1 _ "all" "all" "" (by decide)⟩

/-- The two outcomes of `updateTask` for an authenticated state. -/
lemma updateTask_eq {now : Nat} {id : String} {p : Patch} {s : AppState} {acc : Account}
    (hacc : s.currentAccount = some acc) :
    updateTask now id p s =
      if !((s.tasks.map (updateOne now id p)).any Prod.snd) then
        { s with tasks := (s.tasks.map (updateOne now id p)).map Prod.fst,
                 pendingFocus := none }
      else
        { s with tasks := (s.tasks.map (updateOne now id p)).map Prod.fst,
                 stored := (s.tasks.map (updateOne now id p)).map Prod.fst } := by
  unfold updateTask
  rw [hacc]

/-- C2: an update whose patch agrees with the current values of every
task carrying the target id is a no-op — `updatedAt` is not bumped,
nothing is persisted, the in-memory and stored collections are
unchanged (only the pending focus is dropped); an update some patched
field of which differs persists the new collection and stamps
`updatedAt = now` on the changed tasks, leaving other tasks alone. -/
theorem claim_C2 (s : AppState) (now : Nat) (id : String) (p : Patch)
    (hauth : s.currentAccount.isSome = true) :
    ((∀ t ∈ s.tasks, t.id = id → patchAgrees p t = true) →
      updateTask now id p s = { s with pendingFocus := none }) ∧
    ((∃ t ∈ s.tasks, t.id = id ∧ patchAgrees p t = false) →
      (updateTask now id p s).stored = (updateTask now id p s).tasks ∧
      (updateTask now id p s).tasks.length = s.tasks.length ∧
      (∀ i (h1 : i < s.tasks.length) (h2 : i < (updateTask now id p s).tasks.length),
        ((s.tasks.get ⟨i, h1⟩).id = id → patchAgrees p (s.tasks.get ⟨i, h1⟩) = false →
          ((updateTask now id p s).tasks.get ⟨i, h2⟩).updatedAt = now) ∧
        ((s.tasks.get ⟨i, h1⟩).id ≠ id →
          (updateTask now id p s).tasks.get ⟨i, h2⟩ = s.tasks.get ⟨i, h1⟩))) := by
  obtain ⟨acc, hacc⟩ := Option.isSome_iff_exists.mp hauth
  constructor
  · intro hall
    have hone : ∀ t ∈ s.tasks, updateOne now id p t = (t, false) := by
      intro t ht
      by_cases hid : t.id = id
      · exact updateOne_agrees (hall t ht hid)
      · exact updateOne_other hid
    have hmap : s.tasks.map (updateOne now id p) = s.tasks.map (fun t => (t, false)) :=
      List.map_congr_left hone
    have hany : (s.tasks.map (fun t => (t, false))).any Prod.snd = false := by
      simp
    have htasks : (s.tasks.map (fun t => (t, false))).map Prod.fst = s.tasks := by
      rw [List.map_map]
      show List.map (fun t => t) s.tasks = s.tasks
      exact List.map_id' s.tasks
    rw [updateTask_eq hacc, hmap, hany, htasks]
    rfl
  · rintro ⟨t0, ht0, hid0, hdis⟩
    have hch : (s.tasks.map (updateOne now id p)).any Prod.snd = true := by
      refine List.any_eq_true.mpr ⟨updateOne now id p t0, List.mem_map_of_mem _ ht0, ?_⟩
      rw [updateOne_changed hid0 hdis]
    rw [updateTask_eq hacc, hch]
    rw [if_neg (by decide)]
    refine ⟨rfl, by simp, ?_⟩
    intro i hi1 hi2
    simp only [List.get_eq_getElem] at hi2 ⊢
    simp only [List.getElem_map]
    constructor
    · intro hid hdisi
      rw [updateOne_changed hid hdisi]
    · intro hid
      rw [updateOne_other hid]


/-- Witness for C2: in a concrete authenticated one-task state, a
patch that sets `completed` to its current value is a no-op that only
drops the pending focus. -/
theorem claim_C2_witness :
    sampleState.currentAccount.isSome = true ∧
    ((∀ t ∈ sampleState.tasks, t.id = "t1" →
        patchAgrees { completed := some false } t = true) →
      updateTask 5 "t1" { completed := some false } sampleState =
        { sampleState with pendingFocus := none }) :=
  ⟨by decide, (claim_C2 sampleState 5 "t1" { completed := some false } (by decide)).1⟩

/-- C3: with the agenda scope `day` the visible sequence contains
exactly the status-filtered tasks whose `dueAt` equals the (non-empty)
anchor date; with scope `week` exactly those whose `dueAt` lies in
`weekRange(anchor)` inclusive; a task with no `dueAt` is never visible
under `day` or `week`; and the concrete scenario of two tasks A
(due 2024-03-01) and B (no due date) with filter `all`, scope `day`,
anchor 2024-03-01 shows exactly `["A"]`. -/
theorem claim_C3 :
    (∀ tasks f anchor sort t, anchor ≠ "" →
      (t ∈ getVisibleTasks tasks f "day" anchor sort ↔
        t ∈ statusFilter f tasks ∧ t.dueAt = some anchor)) ∧
    (∀ tasks f anchor sort r t, getWeekRangeISO anchor = some r →
      (t ∈ getVisibleTasks tasks f "week" anchor sort ↔
        t ∈ statusFilter f tasks ∧
          ∃ d, t.dueAt = some d ∧ r.start ≤ d ∧ d ≤ r.end_)) ∧
    (∀ tasks f anchor sort t, t.dueAt = none →
      t ∉ getVisibleTasks tasks f "day" anchor sort ∧
      t ∉ getVisibleTasks tasks f "week" anchor sort) ∧
    (getVisibleTasks
        [{ id := "t-a", title := "A", completed := false, description := none,
           createdAt := 0, updatedAt := 0, dueAt := some "2024-03-01", priority := none },
         { id := "t-b", title := "B", completed := false, description := none,
           createdAt := 0, updatedAt := 0, dueAt := none, priority := none }]
        "all" "day" "2024-03-01" "created").map Task.title = ["A"] := by
  refine ⟨?_, ?_, ?_, by decide⟩
  · intro tasks f anchor sort t ha
    rw [getVisibleTasks, mem_sortTasks, mem_agendaWindow_day]
    constructor
    · rintro ⟨hmem, _, heq⟩
      exact ⟨hmem, heq⟩
    · rintro ⟨hmem, heq⟩
      refine ⟨hmem, ?_, heq⟩
      rw [heq]
      simpa [truthyStr] using ha
  · intro tasks f anchor sort r t hw
    rw [getVisibleTasks, mem_sortTasks, mem_agendaWindow_week hw]
    constructor
    · rintro ⟨hmem, htr, h1, h2⟩
      rcases hdue : t.dueAt with _ | d
      · rw [hdue] at htr
        simp [truthyStr] at htr
      · rw [hdue] at h1 h2
        exact ⟨hmem, d, rfl, h1, h2⟩
    · rintro ⟨hmem, d, hdue, h1, h2⟩
      have hdne : d ≠ "" := by
        intro he
        rw [he] at h1
        exact start_ne_empty_of_weekRange hw (eq_empty_of_le_empty h1)
      refine ⟨hmem, ?_, ?_, ?_⟩ <;> rw [hdue]
      · simpa [truthyStr] using hdne
      · exact h1
      · exact h2
  · intro tasks f anchor sort t hdue
    constructor
    · rw [getVisibleTasks, mem_sortTasks, mem_agendaWindow_day]
      rintro ⟨_, htr, _⟩
      rw [hdue] at htr
      simp [truthyStr] at htr
    · rw [getVisibleTasks, mem_sortTasks]
      rcases hw : getWeekRangeISO anchor with _ | r
      · rw [agendaWindow_week_none hw]
        simp
      · rw [mem_agendaWindow_week hw]
        rintro ⟨_, htr, _⟩
        rw [hdue] at htr
        simp [truthyStr] at htr

/-- Witness for C3: the day-scope characterization applied to the
concrete two-task collection of the scenario. -/
theorem claim_C3_witness :
    ("2024-03-01" : String) ≠ "" ∧
    (({ id := "t-a", title := "A", completed := false, description := none,
        createdAt := 0, updatedAt := 0, dueAt := some "2024-03-01", priority := none } : Task) ∈
      getVisibleTasks
        [{ id := "t-a", title := "A", completed := false, description := none,
           createdAt := 0, updatedAt := 0, dueAt := some "2024-03-01", priority := none },
         { id := "t-b", title := "B", completed := false, description := none,
           createdAt := 0, updatedAt := 0, dueAt := none, priority := none }]
        "all" "day" "2024-03-01" "created" ↔
      ({ id := "t-a", title := "A", completed := false, description := none,
         createdAt := 0, updatedAt := 0, dueAt := some "2024-03-01", priority := none } : Task) ∈
        statusFilter "all"
          [{ id := "t-a", title := "A", completed := false, description := none,
             createdAt := 0, updatedAt := 0, dueAt := some "2024-03-01", priority := none },
           { id := "t-b", title := "B", completed := false, description := none,
             createdAt := 0, updatedAt := 0, dueAt := none, priority := none }] ∧
      ({ id := "t-a", title := "A", completed := false, description := none,
         createdAt := 0, updatedAt := 0, dueAt := some "2024-03-01", priority := none } : Task).dueAt =
        some "2024-03-01") :=
  ⟨by decide, claim_C3.1 _ "all" "2024-03-01" "created" _ (by decide)⟩

/-- Witness for C4 at the concrete anchor 2024-03-06 (a Wednesday,
day number 19788). -/
theorem claim_C4_witness :
    parseISODate "2024-03-06" = some 19788 ∧
    (∃ m, getWeekRangeISO "2024-03-06" = some { start := formatDays m, end_ := formatDays (m + 6) } ∧
      (m + 4) % 7 = 1 ∧ (m + 6 + 4) % 7 = 0 ∧ m ≤ 19788 ∧ 19788 ≤ m + 6) :=
  ⟨by decide, claim_C4.1 "2024-03-06" 19788 (by decide)⟩

/-- C6: registration fails with a `ValidationError` when the trimmed
username is shorter than 3 characters or the password shorter than 6;
with a `ConflictError` when the normalized username already has an
account (whatever casing is used); and on success stores the account
record under the normalized key and returns the hash-free account. -/
theorem claim_C6 (wc : Bool) (now : Nat) (store : Users) (username password : String) :
    ((trimStr username).length < 3 →
      registerUser wc now store username password =
        (store, .error (.validationError "Username must be at least 3 characters long."))) ∧
    (3 ≤ (trimStr username).length → password.length < 6 →
      registerUser wc now store username password =
        (store, .error (.validationError "Password must be at least 6 characters long."))) ∧
    (3 ≤ (trimStr username).length → 6 ≤ password.length →
      ∀ rec, store.lookup (normalizeUsername (trimStr username)) = some rec →
        registerUser wc now store username password =
          (store, .error (.conflictError "That username is already taken."))) ∧
    (3 ≤ (trimStr username).length → 6 ≤ password.length →
      store.lookup (normalizeUsername (trimStr username)) = none →
      registerUser wc now store username password =
        ((normalizeUsername (trimStr username),
          { passwordHash := hashPassword wc password, displayName := trimStr username,
            createdAt := now }) :: store,
         .ok { id := normalizeUsername (trimStr username),
               displayName := trimStr username })) := by
  refine ⟨?_, ?_, ?_, ?_⟩
  · intro h3
    simp only [registerUser]
    rw [if_pos h3]
  · intro h3 h6
    simp only [registerUser]
    rw [if_neg (by omega), if_pos h6]
  · intro h3 h6 rec hrec
    simp only [registerUser]
    rw [if_neg (by omega), if_neg (by omega),
      if_neg (normalizeUsername_trim_ne_empty (ne_empty_of_three_le h3)), hrec]
  · intro h3 h6 hfree
    simp only [registerUser]
    rw [if_neg (by omega), if_neg (by omega),
      if_neg (normalizeUsername_trim_ne_empty (ne_empty_of_three_le h3)), hfree]

/-- Witness for C6: registering "Bob" and then "bob" (other casing,
same normalized key) fails the second time with the conflict error and
leaves the stored table unchanged. -/
theorem claim_C6_witness :
    3 ≤ (trimStr "bob").length ∧ 6 ≤ ("hunter42" : String).length ∧
    (registerUser false 0 [] "Bob" "hunter42").1.lookup
        (normalizeUsername (trimStr "bob")) =
      some { passwordHash := hashPassword false "hunter42", displayName := "Bob",
             createdAt := 0 } ∧
    registerUser false 0 (registerUser false 0 [] "Bob" "hunter42").1 "bob" "hunter42" =
      ((registerUser false 0 [] "Bob" "hunter42").1,
        .error (.conflictError "That username is already taken.")) :=
  ⟨by decide, by decide, by decide,
    (claim_C6 false 0 (registerUser false 0 [] "Bob" "hunter42").1 "bob" "hunter42").2.2.1
      (by decide) (by decide)
      { passwordHash := hashPassword false "hunter42", displayName := "Bob", createdAt := 0 }
      (by decide)⟩

/-- C10: whenever registration fails — short trimmed username, short
password, empty normalized username, or a duplicate normalized
username — the persisted users table is returned exactly as it was,
because every failure is raised before `saveUsers`; and each of those
conditions does produce an error. -/
theorem claim_C10 (wc : Bool) (now : Nat) (store : Users) (username password : String) :
    (∀ e, (registerUser wc now store username password).2 = .error e →
      (registerUser wc now store username password).1 = store) ∧
    ((trimStr username).length < 3 ∨ password.length < 6 ∨
        normalizeUsername (trimStr username) = "" ∨
        (store.lookup (normalizeUsername (trimStr username))).isSome = true →
      ∃ e, (registerUser wc now store username password).2 = .error e) := by
  constructor
  · intro e he
    simp only [registerUser] at he ⊢
    split_ifs at he ⊢ <;> try rfl
    rcases hlk : store.lookup (normalizeUsername (trimStr username)) with _ | rec
    · rw [hlk] at he
      simp at he
    · rfl
  · intro hc
    simp only [registerUser]
    split_ifs with h1 h2 h3
    · exact ⟨_, rfl⟩
    · exact ⟨_, rfl⟩
    · exact ⟨_, rfl⟩
    · rcases hlk : store.lookup (normalizeUsername (trimStr username)) with _ | rec
      · exfalso
        rcases hc with h | h | h | h
        · exact h1 h
        · exact h2 h
        · exact h3 h
        · rw [hlk] at h
          simp at h
      · exact ⟨_, rfl⟩

/-- Witness for C10: a two-character username is rejected with an
error (and, by the theorem's first part, the table is untouched). -/
theorem claim_C10_witness :
    ((trimStr "ab").length < 3 ∨ ("hunter42" : String).length < 6 ∨
      normalizeUsername (trimStr "ab") = "" ∨
      (([] : Users).lookup (normalizeUsername (trimStr "ab"))).isSome = true) ∧
    ∃ e, (registerUser true 0 [] "ab" "hunter42").2 = .error e :=
  ⟨by decide, (claim_C10 true 0 [] "ab" "hunter42").2 (by decide)⟩

/-- C5: a registered account authenticates under any casing of its
username that normalizes to the stored key together with the correct
password, yielding the hash-free account whose `displayName` keeps the
registration casing; a stored hash differing from the supplied
password's hash yields `InvalidCredentialError`; an unknown normalized
username yields `NotFoundError`; and the concrete Alice scenario holds
(register "Alice", then authenticating as "alice" with the right
password succeeds with `displayName = "Alice"`, with the wrong
password fails). -/
theorem claim_C5 :
    (∀ wc now store u0 pw store1 acct,
      registerUser wc now store u0 pw = (store1, .ok acct) →
      ∀ u1, normalizeUsername (trimStr u1) = acct.id →
        authenticateUser wc store1 u1 pw = .ok acct ∧ acct.displayName = trimStr u0) ∧
    (∀ wc store u pw rec,
      normalizeUsername (trimStr u) ≠ "" →
      store.lookup (normalizeUsername (trimStr u)) = some rec →
      rec.passwordHash ≠ hashPassword wc pw →
      authenticateUser wc store u pw =
        .error (.invalidCredentialError "Incorrect password.")) ∧
    (∀ wc store u pw,
      normalizeUsername (trimStr u) ≠ "" →
      store.lookup (normalizeUsername (trimStr u)) = none →
      authenticateUser wc store u pw = .error (.notFoundError "Account not found.")) ∧
    authenticateUser false (registerUser false 0 [] "Alice" "hunter42").1 "alice" "hunter42" =
      .ok { id := "alice", displayName := "Alice" } ∧
    authenticateUser false (registerUser false 0 [] "Alice" "hunter42").1 "alice" "wrongpw" =
      .error (.invalidCredentialError "Incorrect password.") := by
  refine ⟨?_, ?_, ?_, by decide, by decide⟩
  · intro wc now store u0 pw store1 acct hreg u1 hnorm
    simp only [registerUser] at hreg
    by_cases h3 : (trimStr u0).length < 3
    · rw [if_pos h3] at hreg
      simp at hreg
    rw [if_neg h3] at hreg
    by_cases h6 : pw.length < 6
    · rw [if_pos h6] at hreg
      simp at hreg
    rw [if_neg h6] at hreg
    rw [if_neg (normalizeUsername_trim_ne_empty (ne_empty_of_three_le (by omega)))] at hreg
    rcases hlk : store.lookup (normalizeUsername (trimStr u0)) with _ | rec
    · rw [hlk] at hreg
      simp only [] at hreg
      rw [Prod.mk.injEq] at hreg
      obtain ⟨hstore, hok⟩ := hreg
      have hacct := Except.ok.inj hok
      have hid : acct.id = normalizeUsername (trimStr u0) := by
        rw [← hacct]
      have hdn : acct.displayName = trimStr u0 := by
        rw [← hacct]
      refine ⟨?_, hdn⟩
      have hne : normalizeUsername (trimStr u0) ≠ "" :=
        normalizeUsername_trim_ne_empty (ne_empty_of_three_le (by omega))
      have htne : trimStr u0 ≠ "" := ne_empty_of_three_le (by omega)
      have hlook : List.lookup (normalizeUsername (trimStr u0))
          ((normalizeUsername (trimStr u0),
            ({ passwordHash := hashPassword wc pw, displayName := trimStr u0,
               createdAt := now } : UserRecord)) :: store) =
          some { passwordHash := hashPassword wc pw, displayName := trimStr u0,
                 createdAt := now } := by
        simp [List.lookup]
      simp only [authenticateUser, hnorm, hid, ← hstore, hlook]
      rw [if_neg hne]
      simp [htne, ← hacct]
    · rw [hlk] at hreg
      simp at hreg
  · intro wc store u pw rec hne hlk hhash
    simp only [authenticateUser, hne, hlk]
    simp [hhash]
  · intro wc store u pw hne hlk
    simp only [authenticateUser, hne, hlk]
    simp

/-- Witness for C5: the general registered-then-authenticate part
applied to the concrete registration of "Alice", authenticating with
the differently-cased, padded username " ALICE ". -/
theorem claim_C5_witness :
    (registerUser false 0 [] "Alice" "hunter42" =
      ([("alice", { passwordHash := hashPassword false "hunter42", displayName := "Alice",
                    createdAt := 0 })],
        .ok { id := "alice", displayName := "Alice" }) ∧
      normalizeUsername (trimStr " ALICE ") =
        ({ id := "alice", displayName := "Alice" } : Account).id) ∧
    (authenticateUser false
        [("alice", { passwordHash := hashPassword false "hunter42", displayName := "Alice",
                     createdAt := 0 })] " ALICE " "hunter42" =
      .ok { id := "alice", displayName := "Alice" } ∧
      ({ id := "alice", displayName := "Alice" } : Account).displayName = trimStr "Alice") :=
  ⟨⟨by decide, by decide⟩,
    claim_C5.1 false 0 [] "Alice" "hunter42"
      [("alice", { passwordHash := hashPassword false "hunter42", displayName := "Alice",
                   createdAt := 0 })]
      { id := "alice", displayName := "Alice" } (by decide) " ALICE " (by decide)⟩

/-- C7: a persisted session pointer whose referenced account id no
longer exists is discarded from storage and restore returns
unauthenticated; an absent pointer restores to unauthenticated; the
users table is never touched (no account is re-created); and any
account returned by restore exists in the credential store (never a
stale account). -/
theorem claim_C7 (st : SessionState) :
    (∀ i dn, st.session = some (.obj (some i) dn) → i ≠ "" →
      st.users.lookup i = none →
      loadSession st = ({ st with session := none }, none)) ∧
    (st.session = none → loadSession st = (st, none)) ∧
    (loadSession st).1.users = st.users ∧
    (∀ acct, (loadSession st).2 = some acct →
      (st.users.lookup acct.id).isSome = true) := by
  refine ⟨?_, ?_, ?_, ?_⟩
  · intro i dn hs hne hlk
    simp only [loadSession, hs, hlk]
    rw [if_neg hne]
  · intro hs
    simp only [loadSession, hs]
  · rcases hs : st.session with _ | blob
    · simp [loadSession, hs]
    · rcases blob with _ | _ | ⟨oid, dn⟩
      · simp [loadSession, hs]
      · simp [loadSession, hs]
      · rcases oid with _ | i
        · simp [loadSession, hs]
        · simp only [loadSession, hs]
          by_cases hz : i = ""
          · rw [if_pos hz]
          · rw [if_neg hz]
            rcases hlk : st.users.lookup i with _ | record
            · rfl
            · rfl
  · intro acct hacct
    rcases hs : st.session with _ | blob
    · simp [loadSession, hs] at hacct
    · rcases blob with _ | _ | ⟨oid, dn⟩
      · simp [loadSession, hs] at hacct
      · simp [loadSession, hs] at hacct
      · rcases oid with _ | i
        · simp [loadSession, hs] at hacct
        · simp only [loadSession, hs] at hacct
          by_cases hz : i = ""
          · rw [if_pos hz] at hacct
            simp at hacct
          · rw [if_neg hz] at hacct
            rcases hlk : st.users.lookup i with _ | record
            · rw [hlk] at hacct
              simp at hacct
            · rw [hlk] at hacct
              simp only [] at hacct
              have hid : acct.id = i := by
                have := Option.some.inj hacct
                rw [← this]
              rw [hid, hlk]
              rfl

/-- Witness for C7: a concrete stale pointer (account "ghost" missing
from the users table) is removed and restore returns unauthenticated. -/
theorem claim_C7_witness :
    (({ session := some (.obj (some "ghost") none), users := [] } : SessionState).session =
      some (.obj (some "ghost") none) ∧ ("ghost" : String) ≠ "" ∧
      (([] : Users).lookup "ghost") = none) ∧
    loadSession { session := some (.obj (some "ghost") none), users := [] } =
      ({ session := none, users := [] }, none) :=
  ⟨⟨by decide, by decide, by decide⟩,
    (claim_C7 { session := some (.obj (some "ghost") none), users := [] }).1 "ghost" none
      (by decide) (by decide) (by decide)⟩

/-- C8: task load fails soft — an absent, corrupt or non-array blob
loads as the empty collection; a raw record without a string id or
title (or that is not an object) is dropped silently; a kept record
has its `dueAt` and `priority` coerced through `normalizeDate` and
`normalizePriority`, which turn malformed values into absent while the
record itself is kept: a due date `new Date` cannot parse (such as the
day-overflow `2024-02-31`) becomes absent, parseable forms — full
`YYYY-MM-DD` dates, the short `YYYY-MM` and `YYYY` forms, offsetted
date-times, numeric timestamps — are kept as their UTC day, and a
priority outside `low`/`med`/`high` becomes absent. -/
theorem claim_C8 (tz : Int) (now : Nat) :
    loadTasks tz now none = [] ∧
    loadTasks tz now (some .malformed) = [] ∧
    loadTasks tz now (some .nonArray) = [] ∧
    (∀ r : RawTask, r.id = none ∨ r.title = none → normalizeTask tz now (.obj r) = none) ∧
    normalizeTask tz now .notObject = none ∧
    (∀ r i t, r.id = some i → r.title = some t →
      normalizeTask tz now (.obj r) =
        some { id := i, title := t, completed := r.completed, description := r.description,
               createdAt := r.createdAt.getD now, updatedAt := r.updatedAt.getD now,
               dueAt := normalizeDate tz r.dueAt, priority := normalizePriority r.priority }) ∧
    (∀ items, loadTasks tz now (some (.arr items)) = items.filterMap (normalizeTask tz now)) ∧
    (∀ s, jsDateParse tz s = none → normalizeDate tz (some (.str s)) = none) ∧
    (∀ s d, s ≠ "" → jsDateParse tz s = some d →
      normalizeDate tz (some (.str s)) = some (isoSlice10 d)) ∧
    normalizeDate tz (some (.str "2024-02-31")) = none ∧
    normalizeDate tz (some (.str "not a date")) = none ∧
    normalizeDate tz (some (.str "2024-03-01")) = some "2024-03-01" ∧
    normalizeDate tz (some (.str "2024-01")) = some "2024-01-01" ∧
    normalizeDate tz (some (.str "2024")) = some "2024-01-01" ∧
    normalizeDate tz (some (.str "2024-03-01T00:00Z")) = some "2024-03-01" ∧
    normalizeDate tz (some (.num 1709251200000)) = some "2024-03-01" ∧
    (∀ s, s ≠ "low" → s ≠ "med" → s ≠ "high" → normalizePriority (some s) = none) := by
  refine ⟨rfl, rfl, rfl, ?_, rfl, ?_, fun _ => rfl, ?_, ?_,
    rfl, rfl, rfl, rfl, rfl, rfl, rfl, ?_⟩
  · rintro r (hid | htitle) <;>
      rcases hi : r.id with _ | i <;> rcases ht : r.title with _ | t <;>
      simp_all [normalizeTask]
  · intro r i t hid htitle
    simp [normalizeTask, hid, htitle]
  · intro s hp
    simp only [normalizeDate]
    split_ifs with hz
    · rfl
    · rw [hp]
      rfl
  · intro s d hs hp
    simp only [normalizeDate]
    rw [if_neg hs, hp]
    rfl
  · intro s h1 h2 h3
    unfold normalizePriority
    split
    all_goals simp_all

/-- Witness for C8: a record with no id is dropped; a kept record with
the day-overflow due date `2024-02-31` and the unknown priority
`urgent` keeps its other fields with both coerced to absent. -/
theorem claim_C8_witness :
    ((rawNoId.id = none ∨ rawNoId.title = none) ∧
      normalizeTask 0 0 (.obj rawNoId) = none) ∧
    normalizeTask 0 0 (.obj rawBadDue) = some badDueResult :=
  ⟨⟨Or.inl rfl, (claim_C8 0 0).2.2.2.1 rawNoId (Or.inl rfl)⟩,
    ((claim_C8 0 0).2.2.2.2.2.1 rawBadDue "t9" "T9" rfl rfl).trans rfl⟩

/-- The characters of a joined string are the concatenation of the
characters of its pieces. -/
lemma join_data (l : List String) : (String.join l).data = (l.map String.data).flatten := by
  have h : ∀ (l : List String) (s : String),
      (l.foldl (fun r t => r ++ t) s).data = s.data ++ (l.map String.data).flatten := by
    intro l
    induction l with
    | nil => intro s; simp
    | cons x xs ih =>
      intro s
      simp only [List.foldl_cons, List.map_cons, List.flatten_cons]
      rw [ih]
      simp [List.append_assoc]
  show (List.foldl (fun r t => r ++ t) "" l).data = (l.map String.data).flatten
  rw [h l ""]
  rfl

/-- Compressing a block always yields the eight working words. -/
lemma compressBlock_size (h : Array Nat) (b : List Nat) : (compressBlock h b).size = 8 := rfl

/-- Folding compression over any block list keeps eight words. -/
lemma foldl_compressBlock_size (bs : List (List Nat)) :
    ∀ h : Array Nat, h.size = 8 → (bs.foldl compressBlock h).size = 8 := by
  induction bs with
  | nil =>
    intro h hh
    simpa using hh
  | cons b bt ih =>
    intro h hh
    exact ih _ (compressBlock_size h b)

/-- Flattening the image of a map with constant-length pieces. -/
lemma length_flatten_map_const {α β : Type} (f : α → List β) (k : Nat)
    (hf : ∀ a, (f a).length = k) :
    ∀ l : List α, ((l.map f).flatten).length = k * l.length := by
  intro l
  induction l with
  | nil => simp
  | cons a t ih =>
    simp only [List.map_cons, List.flatten_cons, List.length_append, hf, ih,
      List.length_cons]
    ring

/-- A SHA-256 digest has 32 bytes. -/
lemma sha256_length (msg : List Nat) : (sha256 msg).length = 32 := by
  simp only [sha256]
  rw [length_flatten_map_const bytesOfWord 4 (fun w => rfl)]
  rw [Array.length_toList,
    foldl_compressBlock_size ((padMessage msg).toChunks 64) sha256H0 rfl]

/-- Any index into the hex table yields a hex character. -/
lemma mem_hexChars_getD (i : Nat) : hexChars.getD i '0' ∈ hexChars := by
  rcases hq : hexChars.get? i with _ | c
  · simp only [List.getD, hq, Option.getD]
    decide
  · have hc : c ∈ hexChars := List.get?_mem hq
    simp only [List.getD, hq, Option.getD]
    exact hc

/-- C9 (amended): when WebCrypto is available — the app's standard
browser environment — password hashing is deterministic and renders
the SHA-256 digest of the password's UTF-8 bytes as a 64-character
lowercase-hexadecimal string; the claim's "never the plaintext, never
a non-hex encoding" holds only on this path, the non-WebCrypto
fallback being base64 (or the plaintext itself for the empty string). -/
theorem claim_C9 (password : String) :
    hashPassword true password = hashPassword true password ∧
    (hashPassword true password).length = 64 ∧
    (hashPassword true password).data.all isLowerHexChar = true := by
  refine ⟨rfl, ?_, ?_⟩
  · show (String.join ((sha256 (utf8Encode password)).map byteToHex)).length = 64
    show (String.join ((sha256 (utf8Encode password)).map byteToHex)).data.length = 64
    rw [join_data, List.map_map]
    rw [length_flatten_map_const (String.data ∘ byteToHex) 2 (fun b => rfl)]
    rw [sha256_length]
  · show (String.join ((sha256 (utf8Encode password)).map byteToHex)).data.all
      isLowerHexChar = true
    rw [List.all_eq_true]
    intro c hc
    rw [join_data, List.map_map] at hc
    obtain ⟨l, hl, hcl⟩ := List.mem_flatten.mp hc
    obtain ⟨b, hb, rfl⟩ := List.mem_map.mp hl
    have hc2 : c = hexChars.getD (b / 16) '0' ∨ c = hexChars.getD (b % 16) '0' := by
      simpa [byteToHex, Function.comp] using hcl
    unfold isLowerHexChar
    rcases hc2 with h | h <;> rw [h] <;> exact decide_eq_true (mem_hexChars_getD _)

/-- Counterexample to C9 as stated: in the fallback environment
without WebCrypto the code returns base64 — `hashPassword("secret")`
is `"c2VjcmV0"`, which contains non-hex characters — and for the empty
password the fallback output equals the plaintext itself. -/
theorem claim_C9_counterexample :
    hashPassword false "secret" = "c2VjcmV0" ∧
    (hashPassword false "secret").data.all isLowerHexChar = false ∧
    hashPassword false "" = "" :=
  ⟨by decide, by decide, by decide⟩

end TodoApp
